import Mathlib

/-!
# Verification of the DiscordGPT bounded conversation-history buffer

A shallow embedding of `src/token_limiter/token_limiter.py` and
`src/token_limiter/message_entry.py`: the `TokenizedMessageLimiter` class
(a bounded history buffer with token-based FIFO eviction) and the
`MessageEntry` token estimator.

Modelling conventions:
* The external tokenizer (`tiktoken` encode-length) is an injectable size
  function `enc : String → Nat`; all results are parametric in it.
* Python `int` is `Int` where subtraction matters (`limit`, `token_count`);
  per-entry token costs are `Nat` (computed as `4 + _ + _ + 2`).
* The `deque` `message_history` is a `List MessageEntry` whose head is the
  oldest entry (`popleft` removes the head, `append` adds at the tail).
* Raised exceptions become `Except` errors; an operation that raises
  before returning is modelled as returning `.error`.
-/

namespace DiscordGPT

/-- `Role` enum from `token_limiter.py` (`ASSISTANT`/`USER`/`SYSTEM`). -/
inductive Role where
  | assistant
  | user
  | system
deriving DecidableEq, Repr

/-- `.value` of the `Role` enum members. -/
def Role.value : Role → String
  | .assistant => "assistant"
  | .user => "user"
  | .system => "system"

/-- The `{'role': ..., 'content': ...}` dict stored in `MessageEntry.msg`. -/
structure MsgPayload where
  role : String
  content : String
deriving DecidableEq, Repr

/-- Errors raised by the embedded code.
`unsupportedModel` is `NotImplementedError` from
`MessageEntry._calculate_tokens` (the spec's `UnsupportedModelError`);
`emptySystemMessage` is the `TokenizedMessageLimiterException` raised by
`set_system_message` (the spec's `EmptySystemMessageError`);
`indexError` is the `IndexError` a `deque.popleft()` on an empty deque
raises inside `_prune_messages`. -/
inductive LimiterError where
  | unsupportedModel
  | emptySystemMessage
  | indexError
deriving DecidableEq, Repr

/-- `MessageEntry._calculate_tokens(model)` from `message_entry.py`.
The dict iterated over is always `{'role': r, 'content': c}`, so the
`key == 'name'` correction never fires; for `'gpt-3.5-turbo'` the result
is `4 + len(enc(role)) + len(enc(content)) + 2`, and for any other model
the function raises (`NotImplementedError`) after the `tiktoken` encoding
lookup (whose fallback to `cl100k_base` does not avoid the raise). -/
def calculateTokens (enc : String → Nat) (payload : MsgPayload)
    (model : String) : Except LimiterError Nat :=
  if model = "gpt-3.5-turbo" then
    .ok (4 + enc payload.role + enc payload.content + 2)
  else
    .error .unsupportedModel

/-- `MessageEntry` from `message_entry.py`: the payload dict plus the token
count computed once at construction. -/
structure MessageEntry where
  msg : MsgPayload
  tokens : Nat
deriving DecidableEq, Repr

/-- `MessageEntry.__init__(role, content)` at the default
`model='gpt-3.5-turbo'`, for which `_calculate_tokens` always returns
(see `calculateTokens_default`). Every construction site in
`token_limiter.py` uses the default model. -/
def mkEntry (enc : String → Nat) (role : Role) (content : String) :
    MessageEntry :=
  { msg := { role := role.value, content := content }
    tokens := 4 + enc role.value + enc content + 2 }

theorem calculateTokens_default (enc : String → Nat) (role : Role)
    (content : String) :
    calculateTokens enc { role := role.value, content := content }
      "gpt-3.5-turbo" = .ok (mkEntry enc role content).tokens := rfl

/-- State of a `TokenizedMessageLimiter` object: fields `limit`,
`message_history`, `token_count`, `system_message`. -/
structure LimiterState where
  limit : Int
  message_history : List MessageEntry
  token_count : Int
  system_message : MessageEntry
deriving DecidableEq, Repr

/-- Sum of the `tokens` fields over a history list (as an `Int`). -/
def sumTokens (l : List MessageEntry) : Int :=
  (l.map fun e => (e.tokens : Int)).sum

/-- Default system message text installed by `__init__`. -/
def defaultSystemText : String :=
  "You are a helpful assistant that answers messages accurately and concisely"

/-- `TokenizedMessageLimiter.__init__(limit)`: empty history, zero token
count, default system message, and `limit -= system_message.tokens`. -/
def init (enc : String → Nat) (limit : Int := 4096) : LimiterState :=
  let sys := mkEntry enc .system defaultSystemText
  { limit := limit - sys.tokens
    message_history := []
    token_count := 0
    system_message := sys }

/-- `set_system_message(new_system_msg)`: raises if the string is falsy
(Python `if not new_system_msg`, true exactly for the empty string), else
`limit += old.tokens; system_message = MessageEntry(SYSTEM, text);
limit -= new.tokens`.  History and token count are untouched. -/
def setSystemMessage (enc : String → Nat) (s : LimiterState)
    (newSystemMsg : String) : Except LimiterError LimiterState :=
  if newSystemMsg = "" then
    .error .emptySystemMessage
  else
    let newSys := mkEntry enc .system newSystemMsg
    .ok { s with
          limit := s.limit + s.system_message.tokens - newSys.tokens
          system_message := newSys }

/-- The `while self.token_count > self.limit: popleft` loop of
`_prune_messages`.  Arguments: the limit the loop compares against
(`self.limit` — note the method's `limit` parameter is NOT read by the
loop condition), the history deque (head = oldest) and the running
`token_count`.  Returns (remaining history, new token count, pruned
entries in eviction order); `popleft` on an empty deque raises
`IndexError`. -/
def pruneLoop (limit : Int) (hist : List MessageEntry) (tc : Int) :
    Except LimiterError (List MessageEntry × Int × List MessageEntry) :=
  if tc > limit then
    match hist with
    | [] => .error .indexError
    | e :: rest =>
      match pruneLoop limit rest (tc - e.tokens) with
      | .ok (h, t, p) => .ok (h, t, e :: p)
      | .error err => .error err
  else
    .ok (hist, tc, [])

/-- `_prune_messages(limit=None)`: the `limit` parameter is defaulted from
`self.limit` when `None`, but the while loop's condition reads `self.limit`
directly, so the passed argument is never used by the loop (faithful to
the source).  Returns the new state and the pruned entries. -/
def pruneMessages (s : LimiterState) (limitArg : Option Int := none) :
    Except LimiterError (LimiterState × List MessageEntry) :=
  let _limit := limitArg.getD s.limit
  match pruneLoop s.limit s.message_history s.token_count with
  | .ok (h, t, p) =>
    .ok ({ s with message_history := h, token_count := t }, p)
  | .error err => .error err

/-- `add_message(msg, role)`: build the entry, append it at the tail, add
its cost, and prune if `token_count > limit`. -/
def addMessage (enc : String → Nat) (s : LimiterState) (msg : String)
    (role : Role) : Except LimiterError LimiterState :=
  let entry := mkEntry enc role msg
  let s₁ := { s with
              message_history := s.message_history ++ [entry]
              token_count := s.token_count + entry.tokens }
  if s₁.token_count > s₁.limit then
    match pruneMessages s₁ with
    | .ok (s₂, _) => .ok s₂
    | .error err => .error err
  else
    .ok s₁

/-- `clean_messages()`: `_prune_messages(0)` (whose loop in fact compares
against `self.limit`) followed by
`set_system_message(self.system_message.msg['content'])`. -/
def cleanMessages (enc : String → Nat) (s : LimiterState) :
    Except LimiterError LimiterState :=
  match pruneMessages s (some 0) with
  | .ok (s₁, _) => setSystemMessage enc s₁ s₁.system_message.msg.content
  | .error err => .error err

/-- `serialize_messages()`: `[system_message.msg] + [e.msg for e in
message_history]`.  Reads the state only. -/
def serializeMessages (s : LimiterState) : List MsgPayload :=
  s.system_message.msg :: s.message_history.map (fun e => e.msg)

/-- `__deepcopy__`: constructs a fresh `TokenizedMessageLimiter(limit=self.limit)`
(whose `__init__` subtracts the default system message's cost from that
limit again), then overwrites `message_history`, `token_count` and
`system_message` with copies of the original's.  The constructed object's
`limit` field is left as `__init__` set it. -/
def deepcopy (enc : String → Nat) (s : LimiterState) : LimiterState :=
  let newObj := init enc s.limit
  { newObj with
    message_history := s.message_history
    token_count := s.token_count
    system_message := s.system_message }

/-- The operations a caller can perform on one limiter, for stating
whole-sequence invariants. `serialize` and `snapshot` read the original
state without mutating it. -/
inductive Op where
  | setSystem (txt : String)
  | addMsg (role : Role) (txt : String)
  | clearHistory
  | serialize
  | snapshot
deriving DecidableEq, Repr

/-- Effect of one operation on the limiter state (`serialize_messages`
and `__deepcopy__` leave the original object unchanged). -/
def execOp (enc : String → Nat) (op : Op) (s : LimiterState) :
    Except LimiterError LimiterState :=
  match op with
  | .setSystem t => setSystemMessage enc s t
  | .addMsg r t => addMessage enc s t r
  | .clearHistory => cleanMessages enc s
  | .serialize => .ok s
  | .snapshot => .ok s

/-- Run a sequence of operations left to right; the whole run fails as
soon as one operation raises. -/
def execSeq (enc : String → Nat) (ops : List Op) (s : LimiterState) :
    Except LimiterError LimiterState :=
  ops.foldlM (fun st op => execOp enc op st) s

/-- A concrete stand-in tokenizer used in all closed witness statements:
token length = character count. -/
def strLen : String → Nat := String.length

/-! ## Basic lemmas about `sumTokens` and the pruning loop -/

@[simp]
theorem sumTokens_nil : sumTokens [] = 0 := rfl

@[simp]
theorem sumTokens_cons (e : MessageEntry) (l : List MessageEntry) :
    sumTokens (e :: l) = e.tokens + sumTokens l := by
  simp [sumTokens]

@[simp]
theorem sumTokens_append (l l' : List MessageEntry) :
    sumTokens (l ++ l') = sumTokens l + sumTokens l' := by
  simp [sumTokens]

theorem sumTokens_nonneg (l : List MessageEntry) : 0 ≤ sumTokens l := by
  induction l with
  | nil => simp
  | cons e rest ih =>
    have := Int.ofNat_nonneg e.tokens
    simp only [sumTokens_cons]
    omega

theorem pruneLoop_of_le {limit tc : Int} (hist : List MessageEntry)
    (h : tc ≤ limit) : pruneLoop limit hist tc = .ok (hist, tc, []) := by
  unfold pruneLoop
  rw [if_neg (by omega)]

theorem pruneLoop_nil_of_gt {limit tc : Int} (h : tc > limit) :
    pruneLoop limit ([] : List MessageEntry) tc = .error .indexError := by
  unfold pruneLoop
  rw [if_pos h]

theorem pruneLoop_cons_of_gt {limit tc : Int} (e : MessageEntry)
    (rest : List MessageEntry) (h : tc > limit) :
    pruneLoop limit (e :: rest) tc =
      match pruneLoop limit rest (tc - e.tokens) with
      | .ok (hh, t, p) => .ok (hh, t, e :: p)
      | .error err => .error err := by
  conv_lhs => rw [pruneLoop]
  rw [if_pos h]

/-- Anatomy of a successful run of the pruning loop: it removed a prefix
`p` of the history, subtracted its cost from the token count, and stopped
with the count at or below the limit. -/
theorem pruneLoop_ok (limit : Int) :
    ∀ (hist : List MessageEntry) (tc : Int) (h : List MessageEntry)
      (t : Int) (p : List MessageEntry),
      pruneLoop limit hist tc = .ok (h, t, p) →
      hist = p ++ h ∧ t = tc - sumTokens p ∧ t ≤ limit := by
  intro hist
  induction hist with
  | nil =>
    intro tc h t p heq
    by_cases hgt : tc > limit
    · rw [pruneLoop_nil_of_gt hgt] at heq
      exact absurd heq (by simp)
    · rw [pruneLoop_of_le _ (by omega)] at heq
      simp only [Except.ok.injEq, Prod.mk.injEq] at heq
      obtain ⟨rfl, rfl, rfl⟩ := heq
      refine ⟨rfl, by simp, by omega⟩
  | cons e rest ih =>
    intro tc h t p heq
    by_cases hgt : tc > limit
    · rw [pruneLoop_cons_of_gt e rest hgt] at heq
      cases hrec : pruneLoop limit rest (tc - e.tokens) with
      | ok res =>
        obtain ⟨h', t', p'⟩ := res
        rw [hrec] at heq
        simp only [Except.ok.injEq, Prod.mk.injEq] at heq
        obtain ⟨rfl, rfl, rfl⟩ := heq
        obtain ⟨hsplit, hsum, hle⟩ := ih (tc - e.tokens) h' t' p' hrec
        refine ⟨by rw [List.cons_append, ← hsplit], ?_, hle⟩
        simp only [sumTokens_cons]
        omega
      | error err =>
        rw [hrec] at heq
        exact absurd heq (by simp)
    · rw [pruneLoop_of_le _ (by omega)] at heq
      simp only [Except.ok.injEq, Prod.mk.injEq] at heq
      obtain ⟨rfl, rfl, rfl⟩ := heq
      refine ⟨by simp, by simp, by omega⟩

/-- The pruning loop cannot raise `IndexError` when the token count is the
sum of the history's costs and the limit is non-negative: at worst it
drains the whole history and stops at count `0 ≤ limit`. -/
theorem pruneLoop_total (limit : Int) (hlim : 0 ≤ limit) :
    ∀ (hist : List MessageEntry) (tc : Int), tc = sumTokens hist →
      ∃ h t p, pruneLoop limit hist tc = .ok (h, t, p) := by
  intro hist
  induction hist with
  | nil =>
    intro tc htc
    simp only [sumTokens_nil] at htc
    subst htc
    exact ⟨[], 0, [], pruneLoop_of_le [] hlim⟩
  | cons e rest ih =>
    intro tc htc
    by_cases hgt : tc > limit
    · obtain ⟨h, t, p, hrec⟩ := ih (tc - e.tokens) (by
        simp only [sumTokens_cons] at htc; omega)
      refine ⟨h, t, e :: p, ?_⟩
      rw [pruneLoop_cons_of_gt e rest hgt, hrec]
    · exact ⟨e :: rest, tc, [], pruneLoop_of_le _ (by omega)⟩

/-! ## Reachable-state invariants and per-operation lemmas -/

/-- The bookkeeping invariant: `token_count` is the sum of the costs of
the entries currently in `message_history`. -/
def SumInv (s : LimiterState) : Prop :=
  s.token_count = sumTokens s.message_history

/-- Every reachable state's system message was built by
`MessageEntry(Role.SYSTEM, content)` on its own content (true after
`__init__` and after every successful `set_system_message`). -/
def SysWF (enc : String → Nat) (s : LimiterState) : Prop :=
  s.system_message = mkEntry enc .system s.system_message.msg.content

theorem sysWF_mkEntry (enc : String → Nat) (c : String) :
    mkEntry enc .system ((mkEntry enc .system c).msg.content) =
      mkEntry enc .system c := rfl

theorem init_sumInv (enc : String → Nat) (L : Int) : SumInv (init enc L) :=
  rfl

theorem init_sysWF (enc : String → Nat) (L : Int) : SysWF enc (init enc L) :=
  rfl

/-- Successful `set_system_message` run: the text was non-empty, the
history and token count are untouched, the system entry is replaced and
the limit adjusted by `old cost - new cost`. -/
theorem setSystemMessage_ok {enc : String → Nat} {s s' : LimiterState}
    {t : String} (h : setSystemMessage enc s t = .ok s') :
    t ≠ "" ∧
    s'.message_history = s.message_history ∧
    s'.token_count = s.token_count ∧
    s'.limit = s.limit + s.system_message.tokens -
      (mkEntry enc .system t).tokens ∧
    s'.system_message = mkEntry enc .system t := by
  unfold setSystemMessage at h
  split at h
  · exact absurd h (by simp)
  · rename_i hne
    simp only [Except.ok.injEq] at h
    subst h
    exact ⟨hne, rfl, rfl, rfl, rfl⟩

/-- `set_system_message('')` raises before any field is assigned. -/
theorem setSystemMessage_empty (enc : String → Nat) (s : LimiterState) :
    setSystemMessage enc s "" = .error .emptySystemMessage := by
  unfold setSystemMessage
  rw [if_pos rfl]

/-- Successful `_prune_messages` run: a prefix of the history was evicted,
its cost subtracted, and the loop stopped with `token_count <= self.limit`
(whatever `limit` argument was passed). -/
theorem pruneMessages_ok {s s' : LimiterState} {arg : Option Int}
    {p : List MessageEntry} (h : pruneMessages s arg = .ok (s', p)) :
    s.message_history = p ++ s'.message_history ∧
    s'.token_count = s.token_count - sumTokens p ∧
    s'.token_count ≤ s.limit ∧
    s'.limit = s.limit ∧
    s'.system_message = s.system_message := by
  unfold pruneMessages at h
  cases hrec : pruneLoop s.limit s.message_history s.token_count with
  | ok res =>
    obtain ⟨hh, t, pp⟩ := res
    rw [hrec] at h
    simp only [Except.ok.injEq, Prod.mk.injEq] at h
    obtain ⟨rfl, rfl⟩ := h
    obtain ⟨hsplit, hsum, hle⟩ := pruneLoop_ok _ _ _ _ _ _ hrec
    exact ⟨hsplit, hsum, hle, rfl, rfl⟩
  | error err =>
    rw [hrec] at h
    exact absurd h (by simp)

/-- Successful `add_message` run: the sum invariant is preserved, the
token count ends at or below the (unchanged) limit, and the system
message is untouched. -/
theorem addMessage_ok {enc : String → Nat} {s s' : LimiterState}
    {msg : String} {role : Role}
    (h : addMessage enc s msg role = .ok s') (hinv : SumInv s) :
    SumInv s' ∧ s'.token_count ≤ s'.limit ∧ s'.limit = s.limit ∧
    s'.system_message = s.system_message := by
  unfold addMessage at h
  dsimp only at h
  split at h
  · rename_i hgt
    cases hp : pruneMessages
        { s with
          message_history := s.message_history ++ [mkEntry enc role msg]
          token_count := s.token_count + (mkEntry enc role msg).tokens }
        none with
    | ok res =>
      obtain ⟨s₂, pr⟩ := res
      rw [hp] at h
      simp only [Except.ok.injEq] at h
      subst h
      obtain ⟨hsplit, hsum, hle, hlim, hsys⟩ := pruneMessages_ok hp
      simp only at hsplit hsum hle hlim hsys
      refine ⟨?_, by omega, hlim, hsys⟩
      unfold SumInv at hinv ⊢
      have htot : sumTokens (s.message_history ++ [mkEntry enc role msg]) =
          sumTokens pr + sumTokens s₂.message_history := by
        rw [hsplit]; simp
      simp only [sumTokens_append, sumTokens_cons, sumTokens_nil] at htot
      omega
    | error err =>
      rw [hp] at h
      exact absurd h (by simp)
  · rename_i hle
    simp only [Except.ok.injEq] at h
    subst h
    refine ⟨?_, by simp only at hle ⊢; omega, rfl, rfl⟩
    unfold SumInv at hinv ⊢
    simp only [sumTokens_append, sumTokens_cons, sumTokens_nil]
    omega

/-- Successful `clean_messages` run on a well-formed state: invariants
are preserved, the limit is unchanged (the system message is re-set to
its own text, so the adjustment cancels), and the token count ends at or
below it. -/
theorem cleanMessages_ok {enc : String → Nat} {s s' : LimiterState}
    (h : cleanMessages enc s = .ok s') (hinv : SumInv s)
    (hwf : SysWF enc s) :
    SumInv s' ∧ SysWF enc s' ∧ s'.token_count ≤ s'.limit ∧
    s'.limit = s.limit := by
  unfold cleanMessages at h
  cases hp : pruneMessages s (some 0) with
  | ok res =>
    obtain ⟨s₁, pr⟩ := res
    rw [hp] at h
    obtain ⟨hsplit, hsum, hle, hlim, hsys⟩ := pruneMessages_ok hp
    obtain ⟨_, hhist', htc', hlim', hsys'⟩ := setSystemMessage_ok h
    have hsysinv : SumInv s₁ := by
      unfold SumInv at hinv ⊢
      rw [hsplit] at hinv
      simp only [sumTokens_append] at hinv
      omega
    have hcancel : (mkEntry enc .system s₁.system_message.msg.content).tokens
        = s₁.system_message.tokens := by
      rw [hsys, ← hwf]
    constructor
    · unfold SumInv at hsysinv ⊢
      rw [hhist', htc']
      exact hsysinv
    refine ⟨?_, ?_, ?_⟩
    · unfold SysWF
      rw [hsys']
      rfl
    · rw [htc', hlim', hcancel]
      omega
    · rw [hlim', hcancel, hlim]
      omega
  | error err =>
    rw [hp] at h
    exact absurd h (by simp)

/-! ## Whole-sequence invariants -/

/-- One successful operation preserves both reachability invariants. -/
theorem execOp_ok {enc : String → Nat} {op : Op} {s s' : LimiterState}
    (h : execOp enc op s = .ok s') (hinv : SumInv s) (hwf : SysWF enc s) :
    SumInv s' ∧ SysWF enc s' := by
  cases op with
  | setSystem t =>
    obtain ⟨_, hh, ht, _, hsys⟩ := setSystemMessage_ok h
    constructor
    · unfold SumInv at hinv ⊢
      rw [hh, ht]
      exact hinv
    · unfold SysWF
      rw [hsys]
      rfl
  | addMsg r t =>
    obtain ⟨hi, _, _, hsys⟩ := addMessage_ok h hinv
    refine ⟨hi, ?_⟩
    unfold SysWF at hwf ⊢
    rw [hsys]
    exact hwf
  | clearHistory =>
    obtain ⟨hi, hw, _, _⟩ := cleanMessages_ok h hinv hwf
    exact ⟨hi, hw⟩
  | serialize =>
    simp only [execOp, Except.ok.injEq] at h
    subst h
    exact ⟨hinv, hwf⟩
  | snapshot =>
    simp only [execOp, Except.ok.injEq] at h
    subst h
    exact ⟨hinv, hwf⟩

/-- A successful `add_message` or `clean_messages` additionally leaves
`token_count <= limit`. -/
theorem execOp_ok_bound {enc : String → Nat} {op : Op} {s s' : LimiterState}
    (h : execOp enc op s = .ok s') (hinv : SumInv s) (hwf : SysWF enc s)
    (hop : (∃ r t, op = Op.addMsg r t) ∨ op = Op.clearHistory) :
    s'.token_count ≤ s'.limit := by
  rcases hop with ⟨r, t, rfl⟩ | rfl
  · exact (addMessage_ok h hinv).2.1
  · exact (cleanMessages_ok h hinv hwf).2.2.1

/-- Running any sequence of operations from an invariant-satisfying state
preserves the invariants, provided the run returns. -/
theorem execSeq_ok_inv {enc : String → Nat} :
    ∀ (ops : List Op) (s s' : LimiterState),
      execSeq enc ops s = .ok s' → SumInv s → SysWF enc s →
      SumInv s' ∧ SysWF enc s' := by
  intro ops
  induction ops with
  | nil =>
    intro s s' h hi hw
    simp only [execSeq, List.foldlM_nil, pure, Except.pure,
      Except.ok.injEq] at h
    subst h
    exact ⟨hi, hw⟩
  | cons op rest ih =>
    intro s s' h hi hw
    simp only [execSeq, List.foldlM_cons] at h
    cases hop : execOp enc op s with
    | ok s₁ =>
      rw [hop] at h
      simp only [bind, Except.bind] at h
      obtain ⟨hi₁, hw₁⟩ := execOp_ok hop hi hw
      exact ih s₁ s' h hi₁ hw₁
    | error err =>
      rw [hop] at h
      simp only [bind, Except.bind] at h
      exact absurd h (by simp)

/-- Splitting a successful run at its last operation. -/
theorem execSeq_snoc {enc : String → Nat} {pre : List Op} {op : Op}
    {s s' : LimiterState} (h : execSeq enc (pre ++ [op]) s = .ok s') :
    ∃ sm, execSeq enc pre s = .ok sm ∧ execOp enc op sm = .ok s' := by
  unfold execSeq at h ⊢
  rw [List.foldlM_append] at h
  cases hpre : List.foldlM (fun st o => execOp enc o st) s pre with
  | ok sm =>
    rw [hpre] at h
    simp only [bind, Except.bind, List.foldlM_cons, List.foldlM_nil] at h
    cases hop : execOp enc op sm with
    | ok s₂ =>
      rw [hop] at h
      simp only [pure, Except.pure, Except.ok.injEq] at h
      subst h
      exact ⟨sm, rfl, hop⟩
    | error err =>
      rw [hop] at h
      exact absurd h (by simp)
  | error err =>
    rw [hpre] at h
    simp only [bind, Except.bind] at h
    exact absurd h (by simp)

/-! ## Claim C1 -/

/-- C1: for every sequence of buffer operations starting from
construction, after each operation returns the running token count equals
the sum of the token costs of the entries currently in the history
buffer; and whenever the last operation performed was an `add_message` or
a `clear_history` that returned, `running_total <= capacity` also holds
(quantifying over all sequences makes this a statement about every
intermediate state of a run). -/
theorem seq_token_invariants (enc : String → Nat) (L : Int) (ops : List Op)
    (s' : LimiterState) (h : execSeq enc ops (init enc L) = .ok s') :
    s'.token_count = sumTokens s'.message_history ∧
    (∀ (pre : List Op) (op : Op), ops = pre ++ [op] →
      ((∃ r t, op = Op.addMsg r t) ∨ op = Op.clearHistory) →
      s'.token_count ≤ s'.limit) := by
  constructor
  · exact (execSeq_ok_inv ops _ s' h (init_sumInv enc L) (init_sysWF enc L)).1
  · intro pre op hops hop
    subst hops
    obtain ⟨sm, hpre, hlast⟩ := execSeq_snoc h
    obtain ⟨hi, hw⟩ :=
      execSeq_ok_inv pre _ sm hpre (init_sumInv enc L) (init_sysWF enc L)
    exact execOp_ok_bound hlast hi hw hop

/-- The state reached by one concrete run, used to instantiate C1. -/
def wState : LimiterState :=
  (execSeq strLen [Op.addMsg Role.user "hi"]
    (init strLen 4096)).toOption.getD (init strLen 4096)

/-- Witness for C1 at a concrete run: one `add_message` after
construction, with both invariants evaluated on the resulting state. -/
theorem seq_token_invariants_witness :
    wState.token_count = sumTokens wState.message_history ∧
    wState.token_count ≤ wState.limit := by
  have hrun : execSeq strLen [Op.addMsg Role.user "hi"]
      (init strLen 4096) = .ok wState := by rfl
  have hmain := seq_token_invariants strLen 4096
    [Op.addMsg Role.user "hi"] wState hrun
  exact ⟨hmain.1, hmain.2 [] (Op.addMsg Role.user "hi") rfl
    (Or.inl ⟨Role.user, "hi", rfl⟩)⟩

/-! ## Claim C2 -/

/-- The pruning loop started right after appending an entry whose cost
alone exceeds the (non-negative) limit drains the whole history,
including that entry, and stops at token count `0`. -/
theorem pruneLoop_drains (limit : Int) (entry : MessageEntry)
    (hc : (entry.tokens : Int) > limit) (hlim : 0 ≤ limit) :
    ∀ (hist : List MessageEntry) (tc : Int), tc = sumTokens hist →
      pruneLoop limit (hist ++ [entry]) (tc + entry.tokens) =
        .ok ([], 0, hist ++ [entry]) := by
  intro hist
  induction hist with
  | nil =>
    intro tc htc
    simp only [sumTokens_nil] at htc
    subst htc
    rw [List.nil_append, pruneLoop_cons_of_gt entry [] (by omega)]
    rw [show (0 : Int) + entry.tokens - entry.tokens = 0 by omega,
      pruneLoop_of_le [] hlim]
  | cons e rest ih =>
    intro tc htc
    have hrest : 0 ≤ sumTokens rest := sumTokens_nonneg rest
    simp only [sumTokens_cons] at htc
    rw [List.cons_append,
      pruneLoop_cons_of_gt e (rest ++ [entry]) (by omega)]
    rw [show tc + entry.tokens - e.tokens =
      sumTokens rest + entry.tokens by omega]
    rw [ih (sumTokens rest) rfl]

/-- C2 (amended): a message whose token cost alone exceeds the capacity
causes `add_message` to evict the entire prior history *and* the new
message itself: the call returns with an empty history buffer and running
total `0`. -/
theorem addMessage_oversized_empties_history (enc : String → Nat)
    (s : LimiterState) (msg : String) (role : Role) (hinv : SumInv s)
    (hbudget : s.token_count ≤ s.limit)
    (hbig : s.limit < (mkEntry enc role msg).tokens) :
    addMessage enc s msg role =
      .ok { s with message_history := [], token_count := 0 } := by
  have htc : 0 ≤ s.token_count := hinv ▸ sumTokens_nonneg _
  have hlim : 0 ≤ s.limit := le_trans htc hbudget
  unfold addMessage
  dsimp only
  rw [if_pos (by omega)]
  unfold pruneMessages
  dsimp only
  rw [pruneLoop_drains s.limit (mkEntry enc role msg) (by omega) hlim
    s.message_history s.token_count hinv]

/-- The concrete pre-state for the C2 scenario: capacity exactly 50 and
two messages of cost 20 each already in the history. -/
def c2Pre : LimiterState :=
  (execSeq strLen
    [Op.addMsg Role.user "0123456789", Op.addMsg Role.user "abcdefghij"]
    (init strLen (50 + (mkEntry strLen .system defaultSystemText).tokens))
    ).toOption.getD (init strLen 4096)

/-- A message of 990 characters: cost 4 + 4 + 990 + 2 = 1000 under
`strLen` for role `user`. -/
def bigMsg : String := String.mk (List.replicate 990 'a')

set_option maxRecDepth 20000 in
/-- C2 counterexample: against capacity 50 with a within-budget history
of two entries, adding a message of cost 1000 leaves the history buffer
empty — the new message is evicted too, so it does NOT remain as the sole
surviving entry as the claim states. -/
theorem addMessage_oversized_counterexample :
    c2Pre.limit = 50 ∧
    c2Pre.token_count = 40 ∧
    c2Pre.message_history.length = 2 ∧
    (mkEntry strLen Role.user bigMsg).tokens = 1000 ∧
    addMessage strLen c2Pre bigMsg Role.user =
      .ok { c2Pre with message_history := [], token_count := 0 } ∧
    ({ c2Pre with message_history := [], token_count := 0 } :
      LimiterState).message_history ≠ [mkEntry strLen Role.user bigMsg] := by
  refine ⟨by decide, by decide, by decide, by decide, ?_, by simp⟩
  rfl

set_option maxRecDepth 20000 in
/-- Witness for the amended C2 theorem at the same concrete input. -/
theorem addMessage_oversized_empties_history_witness :
    addMessage strLen c2Pre bigMsg Role.user =
      .ok { c2Pre with message_history := [], token_count := 0 } := by
  apply addMessage_oversized_empties_history strLen c2Pre bigMsg Role.user
  · show c2Pre.token_count = sumTokens c2Pre.message_history
    decide
  · decide
  · decide

/-! ## Claim C3 -/

/-- A non-empty within-budget buffer: capacity 50 holding two messages of
cost 20 each. -/
def c3Pre : LimiterState :=
  (execSeq strLen
    [Op.addMsg Role.user "0123456789", Op.addMsg Role.user "abcdefghij"]
    (init strLen (50 + (mkEntry strLen .system defaultSystemText).tokens))
    ).toOption.getD (init strLen 4096)

set_option maxRecDepth 20000 in
/-- C3 failing input, evaluating `clean_messages` on a non-empty buffer:
the call returns with the state completely unchanged — the history still
holds its two entries and `running_total` is still 40, not 0.  The
`_prune_messages(0)` call inside `clean_messages` binds its `limit`
parameter but the `while` loop compares against `self.limit`, so nothing
is evicted while the buffer is within budget. -/
theorem cleanMessages_keeps_history_failing_input :
    c3Pre.message_history.length = 2 ∧
    c3Pre.token_count = 40 ∧
    cleanMessages strLen c3Pre = .ok c3Pre ∧
    c3Pre.token_count ≠ 0 ∧
    c3Pre.message_history ≠ [] := by
  refine ⟨by decide, by decide, ?_, by decide, by decide⟩
  rfl

/-! ## Claim C4 -/

/-- `add_message` always returns (no `IndexError`) when the limit is
non-negative, and it restores `token_count <= limit`. -/
theorem addMessage_total (enc : String → Nat) (s : LimiterState)
    (msg : String) (role : Role) (hinv : SumInv s) (hlim : 0 ≤ s.limit) :
    ∃ s', addMessage enc s msg role = .ok s' ∧
      s'.token_count ≤ s'.limit := by
  unfold addMessage
  dsimp only
  by_cases hgt :
      s.token_count + ((mkEntry enc role msg).tokens : Int) > s.limit
  · rw [if_pos hgt]
    obtain ⟨h, t, p, hpl⟩ := pruneLoop_total s.limit hlim
      (s.message_history ++ [mkEntry enc role msg])
      (s.token_count + (mkEntry enc role msg).tokens)
      (by unfold SumInv at hinv; simp [hinv])
    unfold pruneMessages
    dsimp only
    rw [hpl]
    exact ⟨_, rfl, (pruneLoop_ok _ _ _ _ _ _ hpl).2.2⟩
  · rw [if_neg hgt]
    exact ⟨_, rfl, by simp only; omega⟩

/-- A system message of 300 characters: cost 4 + 6 + 300 + 2 = 312 under
`strLen`. -/
def longSys : String := String.mk (List.replicate 300 'b')

/-- The state right after replacing the system message of a fresh
limiter (external limit 200, capacity 114) with `longSys`: capacity
drops to -112 with the history empty. -/
def c4Mid : LimiterState :=
  (setSystemMessage strLen (init strLen 200) longSys).toOption.getD
    (init strLen 200)

set_option maxRecDepth 20000 in
/-- C4 counterexample: `set_system_message` may leave the capacity
negative, and then the next `add_message` does NOT return normally with
`running_total <= capacity`: it empties the buffer, finds the count `0`
still above the negative limit, and `deque.popleft()` raises
`IndexError`. -/
theorem addMessage_negative_capacity_counterexample :
    setSystemMessage strLen (init strLen 200) longSys = .ok c4Mid ∧
    c4Mid.limit = -112 ∧
    c4Mid.token_count > c4Mid.limit ∧
    addMessage strLen c4Mid "hi" Role.user = .error .indexError := by
  refine ⟨rfl, by decide, by decide, ?_⟩
  rfl

/-- C4 (amended): `set_system_message` on non-empty text adjusts the
capacity by `(+old_cost - new_cost)`, replaces the system entry and never
evicts history even when this leaves the state over budget (capacity may
become negative); the next `add_message` then resolves the over-budget
state — it returns normally with `running_total <= capacity` provided the
adjusted capacity is non-negative (with a negative capacity it instead
raises `IndexError` after draining the buffer). -/
theorem setSystemMessage_defers_eviction (enc : String → Nat)
    (s s' : LimiterState) (t : String)
    (hset : setSystemMessage enc s t = .ok s') :
    (s'.message_history = s.message_history ∧
     s'.token_count = s.token_count ∧
     s'.limit = s.limit + s.system_message.tokens -
       (mkEntry enc .system t).tokens ∧
     s'.system_message = mkEntry enc .system t) ∧
    (∀ (msg : String) (role : Role), SumInv s' → 0 ≤ s'.limit →
      ∃ s'', addMessage enc s' msg role = .ok s'' ∧
        s''.token_count ≤ s''.limit) := by
  obtain ⟨_, hh, ht, hl, hs⟩ := setSystemMessage_ok hset
  exact ⟨⟨hh, ht, hl, hs⟩,
    fun msg role hinv hlim => addMessage_total enc s' msg role hinv hlim⟩

/-- Witness for the amended C4 theorem: replace the system message of a
fresh limiter by a short one (capacity stays non-negative), then add one
message. -/
theorem setSystemMessage_defers_eviction_witness :
    (((setSystemMessage strLen (init strLen 4096)
        "Be brief.").toOption.getD (init strLen 4096)).message_history =
      (init strLen 4096).message_history) ∧
    ∃ s'', addMessage strLen
        ((setSystemMessage strLen (init strLen 4096)
          "Be brief.").toOption.getD (init strLen 4096)) "hi" Role.user =
        .ok s'' ∧ s''.token_count ≤ s''.limit := by
  have hset : setSystemMessage strLen (init strLen 4096) "Be brief." =
      .ok ((setSystemMessage strLen (init strLen 4096)
        "Be brief.").toOption.getD (init strLen 4096)) := by rfl
  have hmain := setSystemMessage_defers_eviction strLen (init strLen 4096)
    _ "Be brief." hset
  refine ⟨hmain.1.1, hmain.2 "hi" Role.user ?_ (by decide)⟩
  show _ = sumTokens _
  decide

/-! ## Claim C5 -/

/-- A snapshot source with one message in its history. -/
def c5Orig : LimiterState :=
  (execSeq strLen [Op.addMsg Role.user "hi"]
    (init strLen 4096)).toOption.getD (init strLen 4096)

set_option maxRecDepth 20000 in
/-- C5 failing input, evaluating `__deepcopy__` on a concrete limiter:
the copy's `message_history`, `token_count` and `system_message` all
equal the original's, but its `limit` does not — `__deepcopy__` passes
`self.limit` to the constructor, whose `__init__` subtracts the default
system message's cost (86 under `strLen`) from it a second time, and the
field is never corrected afterwards. -/
theorem deepcopy_limit_failing_input :
    (deepcopy strLen c5Orig).message_history = c5Orig.message_history ∧
    (deepcopy strLen c5Orig).token_count = c5Orig.token_count ∧
    (deepcopy strLen c5Orig).system_message = c5Orig.system_message ∧
    c5Orig.limit = 4010 ∧
    (deepcopy strLen c5Orig).limit = 3924 ∧
    (deepcopy strLen c5Orig).limit ≠ c5Orig.limit := by
  exact ⟨by decide, by decide, by decide, by decide, by decide, by decide⟩

/-! ## Claim C6 -/

set_option maxRecDepth 20000 in
/-- C6 counterexample: a whitespace-only (blank but non-empty) system
message is NOT rejected — Python's `if not new_system_msg` is false for
`' '`, so `set_system_message(' ')` succeeds and installs the blank
message. -/
theorem setSystemMessage_blank_counterexample :
    " " ≠ "" ∧
    " ".data = [' '] ∧
    (' '.isWhitespace = true) ∧
    setSystemMessage strLen (init strLen 4096) " " =
      .ok { init strLen 4096 with
            limit := (init strLen 4096).limit +
              ((init strLen 4096).system_message.tokens : Int) -
              ((mkEntry strLen .system " ").tokens : Int)
            system_message := mkEntry strLen .system " " } := by
  exact ⟨by decide, by decide, by decide, rfl⟩

/-- `set_system_message` as observed by a caller that catches the
exception: the receiver's state afterwards paired with the error raised,
if any.  The `raise` is the very first statement of the method body, so
on the error path no field has been assigned and the state is the
receiver unchanged. -/
def setSystemMessageCaught (enc : String → Nat) (s : LimiterState)
    (t : String) : LimiterState × Option LimiterError :=
  match setSystemMessage enc s t with
  | .ok s' => (s', none)
  | .error e => (s, some e)

/-- C6 (amended): `set_system_message` with *empty* text fails with
`EmptySystemMessageError` and leaves the prior system message, capacity,
history and running total unchanged (the raise precedes any mutation);
whitespace-only non-empty text is not rejected. -/
theorem setSystemMessage_empty_rejected_atomic (enc : String → Nat)
    (s : LimiterState) :
    setSystemMessageCaught enc s "" = (s, some .emptySystemMessage) := by
  unfold setSystemMessageCaught
  rw [setSystemMessage_empty]

/-! ## Claim C7 -/

/-- C7: asking the estimator to apply the per-message-overhead accounting
formula for any model other than `gpt-3.5-turbo` raises (the
`NotImplementedError` standing for the spec's `UnsupportedModelError`);
no approximated cost is ever returned for an unknown model. -/
theorem calculateTokens_unsupported_model (enc : String → Nat)
    (payload : MsgPayload) (model : String)
    (h : model ≠ "gpt-3.5-turbo") :
    calculateTokens enc payload model = .error .unsupportedModel := by
  unfold calculateTokens
  rw [if_neg h]

/-- Witness for C7 at the spec's concrete model string
`"unknown-model-v1"`. -/
theorem calculateTokens_unsupported_model_witness :
    ("unknown-model-v1" ≠ "gpt-3.5-turbo") ∧
    calculateTokens strLen { role := "user", content := "hello" }
      "unknown-model-v1" = .error .unsupportedModel :=
  ⟨by decide, calculateTokens_unsupported_model strLen
    { role := "user", content := "hello" } "unknown-model-v1" (by decide)⟩

/-! ## Claim C8 -/

/-- C8: for the supported model family `gpt-3.5-turbo` the estimator
returns exactly `4 + size(role) + size(content) + 2` where `size` is the
tokenizer's length function, and consequently every entry's token cost is
a non-negative integer, in fact at least 6. -/
theorem calculateTokens_gpt35_formula (enc : String → Nat) (role : Role)
    (content : String) :
    calculateTokens enc { role := role.value, content := content }
      "gpt-3.5-turbo" = .ok (4 + enc role.value + enc content + 2) ∧
    (mkEntry enc role content).tokens =
      4 + enc role.value + enc content + 2 ∧
    6 ≤ (mkEntry enc role content).tokens := by
  refine ⟨rfl, rfl, ?_⟩
  show 6 ≤ 4 + enc role.value + enc content + 2
  omega

/-! ## Claim C9 -/

/-- `add_message` in the within-budget case: the entry is appended at the
tail and nothing is evicted. -/
theorem addMessage_no_evict (enc : String → Nat) (s : LimiterState)
    (msg : String) (role : Role)
    (h : s.token_count + ((mkEntry enc role msg).tokens : Int) ≤ s.limit) :
    addMessage enc s msg role =
      .ok { s with
            message_history := s.message_history ++ [mkEntry enc role msg]
            token_count := s.token_count + (mkEntry enc role msg).tokens } := by
  unfold addMessage
  dsimp only
  rw [if_neg (by omega)]

/-- Appending a batch of messages whose total cost fits within the
remaining budget triggers no eviction: every entry survives, oldest
first, and the token count grows by the total cost. -/
theorem execSeq_adds_no_evict (enc : String → Nat) :
    ∀ (msgs : List (Role × String)) (s : LimiterState),
      s.token_count +
        sumTokens (msgs.map fun rm => mkEntry enc rm.1 rm.2) ≤ s.limit →
      execSeq enc (msgs.map fun rm => Op.addMsg rm.1 rm.2) s =
        .ok { s with
              message_history := s.message_history ++
                msgs.map (fun rm => mkEntry enc rm.1 rm.2)
              token_count := s.token_count +
                sumTokens (msgs.map fun rm => mkEntry enc rm.1 rm.2) } := by
  intro msgs
  induction msgs with
  | nil =>
    intro s hfit
    simp only [List.map_nil, sumTokens_nil, List.append_nil, add_zero]
    rfl
  | cons rm rest ih =>
    intro s hfit
    obtain ⟨r, t⟩ := rm
    simp only [List.map_cons, sumTokens_cons] at hfit ⊢
    have hrest : 0 ≤ sumTokens (rest.map fun rm => mkEntry enc rm.1 rm.2) :=
      sumTokens_nonneg _
    show execSeq enc (Op.addMsg r t :: _) s = _
    unfold execSeq
    rw [List.foldlM_cons]
    have hstep := addMessage_no_evict enc s t r (by omega)
    rw [show execOp enc (Op.addMsg r t) s = addMessage enc s t r from rfl,
      hstep]
    simp only [bind, Except.bind]
    have hih := ih { s with
        message_history := s.message_history ++ [mkEntry enc r t]
        token_count := s.token_count + (mkEntry enc r t).tokens }
      (by simp only; omega)
    unfold execSeq at hih
    rw [hih]
    cases s
    simp only [Except.ok.injEq, LimiterState.mk.injEq, List.append_assoc,
      List.cons_append, List.nil_append]
    exact ⟨trivial, trivial, by omega, trivial⟩

/-- C9: `serialize_messages` is a pure read returning the system entry's
payload followed by the history entries' payloads oldest-first (so with
no mutation in between two calls agree); and appending `N` messages whose
costs fit in the budget (no eviction triggered) then serializing yields a
list of length `N + 1` in chronological order. -/
theorem serializeMessages_spec (enc : String → Nat) (L : Int)
    (msgs : List (Role × String))
    (hfit : sumTokens (msgs.map fun rm => mkEntry enc rm.1 rm.2) ≤
      L - (mkEntry enc .system defaultSystemText).tokens) :
    (∀ s : LimiterState, serializeMessages s =
      s.system_message.msg :: s.message_history.map (fun e => e.msg)) ∧
    ∃ s', execSeq enc (msgs.map fun rm => Op.addMsg rm.1 rm.2)
        (init enc L) = .ok s' ∧
      serializeMessages s' =
        (mkEntry enc .system defaultSystemText).msg ::
          msgs.map (fun rm => (mkEntry enc rm.1 rm.2).msg) ∧
      (serializeMessages s').length = msgs.length + 1 := by
  refine ⟨fun s => rfl, ?_⟩
  have hrun := execSeq_adds_no_evict enc msgs (init enc L) (by
    show (0 : Int) + _ ≤ L - ((mkEntry enc .system defaultSystemText).tokens : Int)
    omega)
  refine ⟨_, hrun, ?_, ?_⟩
  · show (mkEntry enc .system defaultSystemText).msg ::
      (([] : List MessageEntry) ++
        msgs.map fun rm => mkEntry enc rm.1 rm.2).map (fun e => e.msg) = _
    simp [List.map_map, Function.comp]
  · show ((mkEntry enc .system defaultSystemText).msg ::
      (([] : List MessageEntry) ++
        msgs.map fun rm => mkEntry enc rm.1 rm.2).map (fun e => e.msg)).length
      = msgs.length + 1
    simp

/-- Witness for C9: two messages appended to a fresh limiter, well within
the budget. -/
theorem serializeMessages_spec_witness :
    (sumTokens ([(Role.user, "hi"), (Role.assistant, "hello")].map
        fun rm => mkEntry strLen rm.1 rm.2) ≤
      4096 - ((mkEntry strLen .system defaultSystemText).tokens : Int)) ∧
    ∃ s', execSeq strLen
        ([(Role.user, "hi"), (Role.assistant, "hello")].map
          fun rm => Op.addMsg rm.1 rm.2) (init strLen 4096) = .ok s' ∧
      serializeMessages s' =
        (mkEntry strLen .system defaultSystemText).msg ::
          [(Role.user, "hi"), (Role.assistant, "hello")].map
            (fun rm => (mkEntry strLen rm.1 rm.2).msg) ∧
      (serializeMessages s').length =
        [(Role.user, "hi"), (Role.assistant, "hello")].length + 1 :=
  ⟨by decide,
    (serializeMessages_spec strLen 4096
      [(Role.user, "hi"), (Role.assistant, "hello")] (by decide)).2⟩

/-! ## Claim C10 -/

/-- C10: a freshly constructed limiter has an empty history, a zero
running total, the non-empty default system message installed, and a
capacity equal to the supplied limit minus that default message's token
cost — strictly less than the supplied limit itself. -/
theorem init_fresh_state (enc : String → Nat) (L : Int) :
    (init enc L).message_history = [] ∧
    (init enc L).token_count = 0 ∧
    (init enc L).system_message = mkEntry enc .system defaultSystemText ∧
    defaultSystemText ≠ "" ∧
    (init enc L).limit =
      L - (mkEntry enc .system defaultSystemText).tokens ∧
    (init enc L).limit < L := by
  refine ⟨rfl, rfl, rfl, by decide, rfl, ?_⟩
  show L - ((mkEntry enc .system defaultSystemText).tokens : Int) < L
  have h6 : 6 ≤ (mkEntry enc .system defaultSystemText).tokens := by
    show 6 ≤ 4 + enc Role.system.value + enc defaultSystemText + 2
    omega
  omega

end DiscordGPT
